import Mathlib

/-!
Verification development for the cdpnetool interception engine.

The Go sources are shallowly embedded: pure functions become Lean functions,
Go `map[string]T` values become association lists (first-match lookup,
in-place update), JSON values (`any` produced by `encoding/json`) become the
inductive type `J` (numbers are modelled as integers; the claims under study
do not exercise float behaviour), and calls into external libraries
(regexp, encoding/json marshalling, net/url, base64) are abstracted as an
`ExtFns` record of total functions supplied by the environment.
-/

namespace Cdpnetool

/-- JSON values as produced by Go's `encoding/json` unmarshalling into `any`.
Objects model `map[string]any` as association lists; numbers are modelled as
integers. -/
inductive J where
  | null : J
  | bool (b : Bool) : J
  | num (n : Int) : J
  | str (s : String) : J
  | arr (xs : List J) : J
  | obj (fields : List (String × J)) : J

mutual

/-- Structural equality of JSON values, the embedding of Go's
`reflect.DeepEqual` as used by the patch `test` operation. -/
def beqJ : J → J → Bool
  | J.null, J.null => true
  | J.bool a, J.bool b => a == b
  | J.num a, J.num b => a == b
  | J.str a, J.str b => a == b
  | J.arr xs, J.arr ys => beqJList xs ys
  | J.obj xs, J.obj ys => beqJFields xs ys
  | _, _ => false

/-- Element-wise equality of JSON arrays. -/
def beqJList : List J → List J → Bool
  | [], [] => true
  | x :: xs, y :: ys => beqJ x y && beqJList xs ys
  | _, _ => false

/-- Element-wise equality of JSON object fields. -/
def beqJFields : List (String × J) → List (String × J) → Bool
  | [], [] => true
  | (k, v) :: xs, (k2, v2) :: ys => k == k2 && beqJ v v2 && beqJFields xs ys
  | _, _ => false

end

/-- Association-list lookup, mirroring Go map read `v, ok := m[k]`. -/
def mapGet (l : List (String × String)) (k : String) : Option String :=
  match l with
  | [] => none
  | (k', v) :: rest => if k' = k then some v else mapGet rest k

/-- Association-list update, mirroring Go map write `m[k] = v`. -/
def mapSet (l : List (String × String)) (k v : String) : List (String × String) :=
  match l with
  | [] => [(k, v)]
  | (k', v') :: rest => if k' = k then (k, v) :: rest else (k', v') :: mapSet rest k v

/-- Association-list delete, mirroring Go `delete(m, k)`. -/
def mapDel (l : List (String × String)) (k : String) : List (String × String) :=
  match l with
  | [] => []
  | (k', v') :: rest => if k' = k then rest else (k', v') :: mapDel rest k

/-- Substring test, mirroring Go `strings.Contains(s, sub)`. -/
def strContainsAux (sub : List Char) : List Char → Bool
  | [] => sub.isEmpty
  | c :: rest => sub.isPrefixOf (c :: rest) || strContainsAux sub rest

/-- Go `strings.Contains`. -/
def strContains (s sub : String) : Bool :=
  strContainsAux sub.data s.data

/-- ASCII lower-casing of one character, as Go's `strings.ToLower` acts on
the ASCII range (the claims only exercise ASCII header names). -/
def charLower (c : Char) : Char :=
  if 'A' ≤ c ∧ c ≤ 'Z' then Char.ofNat (c.toNat + 32) else c

/-- Go `strings.ToLower` (ASCII range). -/
def strLower (s : String) : String :=
  String.mk (s.data.map charLower)

/-- Go `strings.HasPrefix`. -/
def strHasPre (s pre : String) : Bool :=
  pre.data.isPrefixOf s.data

/-- Go `strings.HasSuffix`. -/
def strHasSuf (s suf : String) : Bool :=
  suf.data.reverse.isPrefixOf s.data.reverse

/-- Go `strings.EqualFold` restricted to the ASCII fold, which is all the
claims exercise. -/
def eqFold (a b : String) : Bool :=
  strLower a = strLower b

/-- Fuelled worker for `replaceAll`; the fuel is the input length, enough for
the left-to-right non-overlapping scan. -/
def replChars (sub repl : List Char) : Nat → List Char → List Char
  | 0, l => l
  | _ + 1, [] => []
  | fuel + 1, c :: rest =>
    if sub.isPrefixOf (c :: rest) then
      repl ++ replChars sub repl fuel ((c :: rest).drop sub.length)
    else c :: replChars sub repl fuel rest

/-- Go `strings.ReplaceAll` for a non-empty pattern (the pointer-escape
patterns `~1` and `~0` are never empty). -/
def replaceAll (s sub repl : String) : String :=
  if sub = "" then s
  else String.mk (replChars sub.data repl.data s.data.length s.data)

/-- Go `strings.TrimSpace` (ASCII whitespace). -/
def trimSpace (s : String) : String :=
  String.mk (((s.data.dropWhile Char.isWhitespace).reverse.dropWhile
    Char.isWhitespace).reverse)

/-- Go `strings.Split` on a single-character separator. -/
def splitChar (sep : Char) (s : String) : List String :=
  (splitCharAux sep s.data []).map (fun cs => String.mk cs.reverse)
where
  /-- Accumulating worker: `cur` is the reversed current field. -/
  splitCharAux (sep : Char) : List Char → List Char → List (List Char)
    | [], cur => [cur]
    | c :: rest, cur =>
      if c = sep then cur :: splitCharAux sep rest []
      else splitCharAux sep rest (c :: cur)

/-- Go `strings.SplitN(s, sep, 2)` for a single-character separator: split at
the first occurrence only; `none` when the separator does not occur. -/
def splitN2 (sep : Char) (s : String) : Option (String × String) :=
  go s.data []
where
  go : List Char → List Char → Option (String × String)
    | [], _ => none
    | c :: rest, acc =>
      if c = sep then some (String.mk acc.reverse, String.mk rest)
      else go rest (c :: acc)

/-! ## JSON Pointer and JSON Patch (`applyJSONPatch`, `setRec`, `removeRec`,
`getByPtr`, `splitPtr`, `toIndex` of the interception manager) -/

/-- JSON object read `v, ok := c[t]` on the `map[string]any` embedding. -/
def objGet (fields : List (String × J)) (k : String) : Option J :=
  match fields with
  | [] => none
  | (k', v) :: rest => if k' = k then some v else objGet rest k

/-- JSON object write `c[t] = v` on the `map[string]any` embedding. -/
def objSet (fields : List (String × J)) (k : String) (v : J) : List (String × J) :=
  match fields with
  | [] => [(k, v)]
  | (k', v') :: rest => if k' = k then (k, v) :: rest else (k', v') :: objSet rest k v

/-- JSON object delete `delete(c, t)` on the `map[string]any` embedding. -/
def objDel (fields : List (String × J)) (k : String) : List (String × J) :=
  match fields with
  | [] => []
  | (k', v') :: rest => if k' = k then rest else (k', v') :: objDel rest k

/-- Inner loop of `splitPtr`: cut the pointer tail at each `/`, mirroring the
index arithmetic of the Go loop (a trailing slash yields no extra token, a
doubled slash yields an empty token). -/
def ptrTokens (cur : List Char) : List Char → List (List Char)
  | [] => [cur.reverse]
  | c :: rest =>
    if c = '/' then
      match rest with
      | [] => [cur.reverse]
      | _ => cur.reverse :: ptrTokens [] rest
    else ptrTokens (c :: cur) rest

/-- `splitPtr`: split a JSON Pointer into tokens, decoding `~1` then `~0`
(RFC-6901 escapes). -/
def splitPtr (p : String) : List String :=
  match p.data.drop 1 with
  | [] => []
  | cs => (ptrTokens [] cs).map
      (fun t => replaceAll (replaceAll (String.mk t) "~1" "/") "~0" "~")

/-- `toIndex`: parse a decimal array index; empty or non-digit input fails
(returned in Go as `(0, false)`). -/
def toIndex (s : String) : Option Nat :=
  match s.data with
  | [] => none
  | cs =>
    if cs.all (fun c => '0' ≤ c ∧ c ≤ '9') then
      some (cs.foldl (fun n c => n * 10 + (c.toNat - '0'.toNat)) 0)
    else none

/-- `setRec`: write `val` at the token path; on objects missing children are
created as empty objects, on arrays only existing indices are overwritten
(out-of-range indices leave the array unchanged), and a scalar in the way is
replaced only when exactly one token remains. -/
def setRec : J → List String → J → J
  | _, [], val => val
  | cur, t :: rest, val =>
    match cur with
    | J.obj fields =>
      let child := (objGet fields t).getD (J.obj [])
      J.obj (objSet fields t (setRec child rest val))
    | J.arr xs =>
      match toIndex t with
      | none => J.arr xs
      | some idx =>
        if h : idx < xs.length then
          J.arr (xs.set idx (setRec (xs.get ⟨idx, h⟩) rest val))
        else J.arr xs
    | other =>
      if rest.isEmpty then val else other

/-- `setByPtr`: `setRec` behind the pointer-shape check; the `replace` flag
is accepted and ignored, exactly as in the source. -/
def setByPtr (cur : J) (ptr : String) (val : J) (replaceFlag : Bool) : J :=
  if strHasPre ptr "/" then setRec cur (splitPtr ptr) val else cur

/-- `removeRec`: delete the node at the token path; missing keys and
out-of-range indices leave the document unchanged. -/
def removeRec : J → List String → J
  | cur, [] => cur
  | cur, t :: rest =>
    match cur with
    | J.obj fields =>
      if rest.isEmpty then J.obj (objDel fields t)
      else
        match objGet fields t with
        | none => J.obj fields
        | some child => J.obj (objSet fields t (removeRec child rest))
    | J.arr xs =>
      match toIndex t with
      | none => J.arr xs
      | some idx =>
        if h : idx < xs.length then
          if rest.isEmpty then J.arr (xs.take idx ++ xs.drop (idx + 1))
          else J.arr (xs.set idx (removeRec (xs.get ⟨idx, h⟩) rest))
        else J.arr xs
    | other => other

/-- `removeByPtr`. -/
def removeByPtr (cur : J) (ptr : String) : J :=
  if strHasPre ptr "/" then removeRec cur (splitPtr ptr) else cur

/-- Walk of `getByPtr` over the parsed document. -/
def getRec : J → List String → Option J
  | x, [] => some x
  | x, t :: rest =>
    match x with
    | J.obj fields =>
      match objGet fields t with
      | none => none
      | some v => getRec v rest
    | J.arr xs =>
      match toIndex t with
      | none => none
      | some idx =>
        if h : idx < xs.length then getRec (xs.get ⟨idx, h⟩) rest else none
    | _ => none

/-- `getByPtr`. -/
def getByPtr (cur : J) (ptr : String) : Option J :=
  if strHasPre ptr "/" then getRec cur (splitPtr ptr) else none

/-- One operation of a JSON Patch (`rulespec.JSONPatchOp`); `fromPath` embeds
the Go field `From`. The `value` of operations that carry none is `J.null`,
matching the zero value of `any`. -/
structure JSONPatchOp where
  op : String
  path : String
  value : J
  fromPath : String

/-- One step of the `applyJSONPatch` loop: `add`/`replace` both delegate to
`setByPtr`, `remove` to `removeByPtr`, `copy`/`move` fail when the source is
unresolvable, `test` fails when the target is unresolvable or differs, and an
unrecognised operation is skipped. -/
def applyOp (v : J) (o : JSONPatchOp) : Option J :=
  if o.op = "add" ∨ o.op = "replace" then
    some (setByPtr v o.path o.value (o.op = "replace"))
  else if o.op = "remove" then
    some (removeByPtr v o.path)
  else if o.op = "copy" then
    match getByPtr v o.fromPath with
    | none => none
    | some src => some (setByPtr v o.path src true)
  else if o.op = "move" then
    match getByPtr v o.fromPath with
    | none => none
    | some src => some (setByPtr (removeByPtr v o.fromPath) o.path src true)
  else if o.op = "test" then
    match getByPtr v o.path with
    | none => none
    | some cur => if beqJ cur o.value then some v else none
  else some v

/-- `applyJSONPatch` on the parsed document: the ordered loop over the
operations, aborting the whole patch on the first failing operation.  The
`json.Unmarshal`/`json.Marshal` boundary of the Go function is modelled at
the AST level (see `applyJSONPatchStr`). -/
def applyJSONPatch : J → List JSONPatchOp → Option J
  | v, [] => some v
  | v, o :: rest =>
    match applyOp v o with
    | none => none
    | some v2 => applyJSONPatch v2 rest

/-! ## External library abstraction

Calls the Go code makes into external libraries (`regexp`, `encoding/json`
marshalling, `net/url`, `base64`) are modelled as a record of total
functions; every claim proved below holds for every instantiation. -/

/-- External library functions. `re s pat` is `matchRegex(s, pat)` (compile
failure folded into `false`, as in the source); `parse` is `json.Unmarshal`
into `any`; `marshal` is `json.Marshal`; `urlPatch` is `urlParse` (parse the
URL, apply the query patch, re-encode); `b64decode` is
`base64.StdEncoding.DecodeString`; `regexReplace pat repl src` is
`regexp.Compile(pat).ReplaceAllString(src, repl)` with compile failure as
`none`; `queryOf` is `url.Parse` followed by `u.Query()` taking first
values. -/
structure ExtFns where
  re : String → String → Bool
  parse : String → Option J
  marshal : J → String
  urlPatch : String → List (String × Option String) → Option String
  b64decode : String → Option String
  regexReplace : String → String → String → Option String
  queryOf : String → List (String × String)

/-! ## Rule data model (`pkg/model` / `pkg/rulespec` as consumed by the
engine and the interception manager) -/

/-- `rulespec` Base64 body-patch carrier. -/
structure Base64Patch where
  value : String

/-- `rulespec` text-regex body-patch carrier. -/
structure TextRegexPatch where
  pattern : String
  replace : String

/-- `rulespec.BodyPatch`: at most one carrier is consulted, in the order
base64, textRegex, jsonPatch. -/
structure BodyPatch where
  base64 : Option Base64Patch
  textRegex : Option TextRegexPatch
  jsonPatch : List JSONPatchOp

/-- `rulespec.Rewrite`. Go `map[string]*string` fields become optional
association lists of optional values (`none` entries are the JSON nulls);
a `none` map is Go's nil map. -/
structure Rewrite where
  url : Option String
  method : Option String
  headers : Option (List (String × Option String))
  query : Option (List (String × Option String))
  cookies : Option (List (String × Option String))
  body : Option BodyPatch

/-- `rulespec.Respond`. -/
structure Respond where
  status : Int
  headers : List (String × String)
  body : String

/-- `rulespec.Fail`. -/
structure Fail where
  reason : String

/-- `rulespec.PauseDefaultAction` (`Type` is a plain string in Go). -/
structure PauseDefaultAction where
  type : String
  status : Int
  reason : String

/-- `rulespec.Pause`. -/
structure Pause where
  stage : String
  timeoutMS : Int
  defaultAction : PauseDefaultAction

/-- `rulespec.Action`: pointers become options; `DropRate` (a float64 in
`(0,1)`) is modelled as a rational. -/
structure Action where
  rewrite : Option Rewrite
  respond : Option Respond
  fail : Option Fail
  pause : Option Pause
  delayMS : Int
  dropRate : Rat

/-- `model.Condition`: a leaf predicate; only the fields its `type`
dictates are consulted. -/
structure Condition where
  type : String
  mode : String
  pattern : String
  values : List String
  key : String
  op : String
  value : String
  pointer : String

/-- `model.Match`: the predicate tree. -/
structure Match where
  allOf : List Condition
  anyOf : List Condition
  noneOf : List Condition

/-- `model.Rule` (the engine consumes `ID`, `Priority`, `Mode`, `Match`,
`Action`; `Match` is renamed `matchOn` as `match` is reserved in Lean). -/
structure Rule where
  id : String
  priority : Int
  mode : String
  matchOn : Match
  action : Action

/-- `model.RuleSet`. -/
structure RuleSet where
  version : String
  rules : List Rule

/-- `rules.Result` (the pointers of the Go struct are always set when a
result is returned, so they are embedded as plain fields). -/
structure Result where
  ruleID : String
  action : Action

/-! ## Rule engine (`internal/rules`: `Engine.Eval`, `matchRule`, `cond`,
`glob`, `jsonPointer`) -/

/-- `glob`: bare `*` matches everything; a pattern starting with `*` matches
by suffix; a pattern ending with `*` matches by prefix; otherwise exact
equality.  `strings.TrimPrefix`/`TrimSuffix` drop a single `*`. -/
def glob (s pattern : String) : Bool :=
  if pattern = "*" then true
  else if strHasPre pattern "*" && strHasSuf s (String.mk (pattern.data.drop 1)) then true
  else if strHasSuf pattern "*" && strHasPre s (String.mk pattern.data.dropLast) then true
  else s = pattern

/-- `jsonPointer`: parse the body, require a `/`-rooted pointer, walk the
document (the walk is the same map/array logic as `getByPtr`), then
stringify the scalar found; non-scalars are marshalled.  `formatFloat`
collapses to integer formatting because numbers are modelled as integers. -/
def jsonPointer (ext : ExtFns) (body ptr : String) : Option String :=
  match ext.parse body with
  | none => none
  | some v =>
    if ¬ strHasPre ptr "/" then none
    else
      match getRec v (splitPtr ptr) with
      | none => none
      | some (J.str s) => some s
      | some (J.num n) => some (toString n)
      | some (J.bool b) => some (if b then "true" else "false")
      | some other => some (ext.marshal other)

/-- The shared `equals`/`contains`/`regex` operator switch of `cond` (it is
written out three times in the Go source, once per map-backed condition
type, with identical bodies); an unknown operator yields `true`. -/
def condOp (ext : ExtFns) (c : Condition) (v : String) : Bool :=
  if c.op = "equals" then v = c.value
  else if c.op = "contains" then strContains v c.value
  else if c.op = "regex" then ext.re v c.value
  else true

/-- `rules.Ctx`: the evaluation context built by the manager. -/
structure Ctx where
  url : String
  method : String
  headers : List (String × String)
  query : List (String × String)
  cookies : List (String × String)
  body : String
  contentType : String
  stage : String

/-- `cond`: one leaf condition against the context.  Header, query and
cookie keys are looked up verbatim (`ctx.Headers[c.Key]` etc.); an unknown
condition type yields `false`. -/
def cond (ext : ExtFns) (ctx : Ctx) (c : Condition) : Bool :=
  if c.type = "url" then
    if c.mode = "prefix" then strHasPre ctx.url c.pattern
    else if c.mode = "regex" then ext.re ctx.url c.pattern
    else if c.mode = "exact" then ctx.url = c.pattern
    else glob ctx.url c.pattern
  else if c.type = "method" then
    c.values.any (fun v => eqFold ctx.method v)
  else if c.type = "header" then
    match mapGet ctx.headers c.key with
    | none => false
    | some v => condOp ext c v
  else if c.type = "query" then
    match mapGet ctx.query c.key with
    | none => false
    | some v => condOp ext c v
  else if c.type = "cookie" then
    match mapGet ctx.cookies c.key with
    | none => false
    | some v => condOp ext c v
  else if c.type = "text" then
    if ctx.body = "" then false else condOp ext c ctx.body
  else if c.type = "json_pointer" then
    if ctx.body = "" then false
    else
      match jsonPointer ext ctx.body c.pointer with
      | none => false
      | some s => condOp ext c s
  else false

/-- `allOf`. -/
def allOf (ext : ExtFns) (ctx : Ctx) (cs : List Condition) : Bool :=
  cs.all (cond ext ctx)

/-- `anyOf`. -/
def anyOf (ext : ExtFns) (ctx : Ctx) (cs : List Condition) : Bool :=
  cs.any (cond ext ctx)

/-- `noneOf`. -/
def noneOf (ext : ExtFns) (ctx : Ctx) (cs : List Condition) : Bool :=
  ! anyOf ext ctx cs

/-- `matchRule`: conjunction of the three groups, each consulted only when
non-empty (an empty group is true). -/
def matchRule (ext : ExtFns) (ctx : Ctx) (m : Match) : Bool :=
  (m.allOf.isEmpty || allOf ext ctx m.allOf) &&
  (m.anyOf.isEmpty || anyOf ext ctx m.anyOf) &&
  (m.noneOf.isEmpty || noneOf ext ctx m.noneOf)

/-- The update guard of the `Engine.Eval` loop:
`chosen == nil || r.Priority > chosen.Priority`. -/
def chosenBeaten (chosen : Option Rule) (r : Rule) : Bool :=
  match chosen with
  | none => true
  | some c => decide (c.priority < r.priority)

/-- The loop of `Engine.Eval`: scan rules in declaration order keeping the
current `chosen`; a matching rule replaces `chosen` only when `chosen` is
empty or the rule's priority is strictly higher, and a replacing rule in
mode `short_circuit` ends the scan at once. -/
def evalLoop (ext : ExtFns) (ctx : Ctx) : List Rule → Option Rule → Option Rule
  | [], chosen => chosen
  | r :: rest, chosen =>
    if matchRule ext ctx r.matchOn then
      if chosenBeaten chosen r then
        if r.mode = "short_circuit" then some r
        else evalLoop ext ctx rest (some r)
      else evalLoop ext ctx rest chosen
    else evalLoop ext ctx rest chosen

/-- `Engine.Eval`: an empty rule list yields `nil` at once, and so does a
scan that chose nothing; otherwise the chosen rule's id and action. -/
def Eval (ext : ExtFns) (rs : RuleSet) (ctx : Ctx) : Option Result :=
  if rs.rules.isEmpty then none
  else (evalLoop ext ctx rs.rules none).map (fun r => ⟨r.id, r.action⟩)

/-- The list of rule ids `Eval` reports: the empty list when no rule is
returned, otherwise the singleton of the chosen rule (used to state claims
about which rules evaluation "returns"). -/
def evalRuleIDs (ext : ExtFns) (rs : RuleSet) (ctx : Ctx) : List String :=
  match Eval ext rs ctx with
  | none => []
  | some res => [res.ruleID]

/-! ## Interception manager (`internal/cdp`: `Manager.handle` and its
helpers)

The manager's interaction with the adapter and the event channels is
captured as a trace of effects.  Time (sleeps, timer values) and contexts
are not part of the trace: a cancelled or expired context does not stop the
adapter call from being *issued* in the Go code, which is what the
termination claims count.  Results of external interactions (the random
drop draw, the per-event elapsed-time check, `GetResponseBody`, the pending
channel's occupancy, the approval rendezvous) are supplied by an `Oracle`
record; every theorem quantifies over all oracles. -/

/-- A terminating adapter call with the arguments the Go code passes.  For
`continueRequest` an empty header list stands for the nil slice (plain
continue). -/
inductive Call where
  | continueRequest (rid : String) (url : Option String) (method : Option String)
      (headers : List (String × String)) (postData : Option String)
  | continueResponse (rid : String) (responseCode : Option Int)
      (responseHeaders : Option (List (String × String)))
  | fulfillRequest (rid : String) (responseCode : Int)
      (responseHeaders : Option (List (String × String))) (body : Option String)
  | failRequest (rid : String) (reason : String)
  deriving DecidableEq

/-- The request identifier an adapter call is issued for. -/
def Call.ridOf : Call → String
  | Call.continueRequest rid _ _ _ _ => rid
  | Call.continueResponse rid _ _ => rid
  | Call.fulfillRequest rid _ _ _ => rid
  | Call.failRequest rid _ => rid

/-- One effect of a handler run: a terminating adapter call, an event-channel
send written as a plain send (`m.events <- e`, which blocks when the channel
is full), an event-channel send written as `select`/`default` (dropped when
full), a pending-channel `select`/`default` send, or a `GetResponseBody`
adapter call. -/
inductive Eff where
  | call (c : Call)
  | emitSend (t : String)
  | emitSelect (t : String)
  | pendingSelect (t : String)
  | fetchBody
  deriving DecidableEq

/-- The intercepted event (`fetch.RequestPausedReply`), with the request
header JSON blob already unmarshalled into an association list. -/
structure PausedEvent where
  requestID : String
  url : String
  method : String
  requestHeaders : List (String × String)
  postData : Option String
  responseStatusCode : Option Int
  responseHeaders : List (String × String)

/-- The manager state a single `handle` run reads. -/
structure MgrState where
  engine : Option RuleSet
  bodySizeThreshold : Int
  processTimeoutMS : Int
  pendingNil : Bool

/-- Oracle for the externally decided outcomes inside one `handle` run. -/
structure Oracle where
  dropDraw : Bool
  timedOut : Bool
  fetchOk : Option String
  pendingFull : Bool
  approval : Option Rewrite

/-- `parseInt64`: decimal digits only. -/
def parseInt64 (s : String) : Option Int :=
  if s.data.all (fun c => '0' ≤ c ∧ c ≤ '9') then
    some (s.data.foldl (fun n c => n * 10 + (c.toNat - '0'.toNat : Int)) 0)
  else none

/-- `parseCookie`: split on `;`, trim, split each piece at the first `=`. -/
def parseCookie (s : String) : List (String × String) :=
  (splitChar ';' s).foldl
    (fun out p =>
      match splitN2 '=' (trimSpace p) with
      | some (k, v) => mapSet out k v
      | none => out)
    []

/-- `parseSetCookie`: first `;`-piece, trimmed, split at the first `=`. -/
def parseSetCookie (s : String) : String × String :=
  let first :=
    match splitN2 ';' s with
    | some (a, _) => a
    | none => s
  match splitN2 '=' (trimSpace first) with
  | some (k, v) => (k, v)
  | none => ("", "")

/-- `shouldGetBody`: a non-positive configured threshold falls back to
4 MiB; a known positive `Content-Length` beyond the threshold refuses; then
the lower-cased `Content-Type` must begin with `text/` or
`application/json`. -/
def shouldGetBody (ctype : String) (clen thr : Int) : Bool :=
  let thr' := if thr ≤ 0 then (4 * 1024 * 1024 : Int) else thr
  if clen > 0 ∧ clen > thr' then false
  else
    let lc := strLower ctype
    if strHasPre lc "text/" then true
    else if strHasPre lc "application/json" then true
    else false

/-- `applyHeaderPatch`: apply a `map[string]*string` patch to the
lower-cased current headers; null deletes, non-null sets, both under the
lower-cased key. -/
def applyHeaderPatch (cur : List (String × String))
    (patch : List (String × Option String)) : List (String × String) :=
  patch.foldl
    (fun acc p =>
      match p.2 with
      | none => mapDel acc (strLower p.1)
      | some v => mapSet acc (strLower p.1) v)
    cur

/-- `getCurrentResponseHeaders`: response headers as a lower-keyed map. -/
def getCurrentResponseHeaders (ev : PausedEvent) : List (String × String) :=
  ev.responseHeaders.foldl (fun acc p => mapSet acc (strLower p.1) p.2) []

/-- `extractResponseMetadata`: scan the response headers for `Content-Type`
and a parsable `Content-Length` (case-insensitively; a later entry wins). -/
def extractResponseMetadata (ev : PausedEvent) : String × Int :=
  ev.responseHeaders.foldl
    (fun acc p =>
      let acc1 := if eqFold p.1 "content-type" then (p.2, acc.2) else acc
      if eqFold p.1 "content-length" then
        match parseInt64 p.2 with
        | some n => (acc1.1, n)
        | none => acc1
      else acc1)
    ("", 0)

/-- `applyJSONPatch` on the document text: an empty document starts from an
empty object, otherwise the text must parse; the patched document is
re-marshalled. -/
def applyJSONPatchStr (ext : ExtFns) (doc : String) (ops : List JSONPatchOp) :
    Option String :=
  let v? := if doc = "" then some (J.obj []) else ext.parse doc
  match v? with
  | none => none
  | some v => (applyJSONPatch v ops).map ext.marshal

/-- `applyBodyPatch`: Base64 replaces the body wholesale; text regex
replaces all matches; a non-empty JSON patch goes through
`applyJSONPatchStr`; with no carrier set the patch contributes nothing. -/
def applyBodyPatch (ext : ExtFns) (src : String) (bp : BodyPatch) :
    Option String :=
  match bp.base64 with
  | some b => ext.b64decode b.value
  | none =>
    match bp.textRegex with
    | some tr => ext.regexReplace tr.pattern tr.replace src
    | none =>
      if bp.jsonPatch.isEmpty then none
      else applyJSONPatchStr ext src bp.jsonPatch

/-- The header-collecting loop of `buildRequestHeaders`: the non-null
entries of a `map[string]*string` patch. -/
def nonNullEntries (hs : List (String × Option String)) :
    List (String × String) :=
  hs.foldr
    (fun p acc =>
      match p.2 with
      | some v => (p.1, v) :: acc
      | none => acc)
    []

/-- `buildRequestHeaders`: the non-null entries of the rewrite's header map,
plus — only when a cookie patch is present — one `Cookie` header rebuilt
from the original `Cookie` request header with the patch applied.  No other
original request header is carried over. -/
def buildRequestHeaders (rw : Rewrite) (ev : PausedEvent) :
    List (String × String) :=
  let hdrs :=
    match rw.headers with
    | none => []
    | some hs => nonNullEntries hs
  match rw.cookies with
  | none => hdrs
  | some cp =>
    let cookie :=
      match ev.requestHeaders.find? (fun p => eqFold p.1 "cookie") with
      | some p => p.2
      | none => ""
    let cm := cp.foldl
      (fun acc p =>
        match p.2 with
        | none => mapDel acc p.1
        | some v => mapSet acc p.1 v)
      (parseCookie cookie)
    if cm.isEmpty then hdrs
    else
      hdrs ++ [("Cookie",
        String.intercalate "; " (cm.map (fun p => p.1 ++ "=" ++ p.2)))]

/-- `buildRequestBody`: apply the body patch to the original post data; a
failed patch or an empty result contributes no body. -/
def buildRequestBody (ext : ExtFns) (rw : Rewrite) (ev : PausedEvent) :
    Option String :=
  match rw.body with
  | none => none
  | some bp =>
    let src :=
      match ev.postData with
      | some d => d
      | none => ""
    match applyBodyPatch ext src bp with
    | some b => if b = "" then none else some b
    | none => none

/-- The `ContinueRequestArgs` built by `applyRequestRewrite`: URL and method
overrides, the rebuilt header list, a query-string re-encode when a query
patch is present without a URL override, and the patched body. -/
def requestRewriteArgs (ext : ExtFns) (rw : Rewrite) (ev : PausedEvent) : Call :=
  let url0 := rw.url
  let hdrs := buildRequestHeaders rw ev
  let post := buildRequestBody ext rw ev
  let url1 :=
    match rw.query, url0 with
    | some qp, none =>
      (match ext.urlPatch ev.url qp with
       | some us => some us
       | none => none)
    | _, _ => url0
  Call.continueRequest ev.requestID url1 rw.method hdrs post

/-- `applyRequestRewrite`: exactly one `continueRequest`. -/
def applyRequestRewrite (ext : ExtFns) (rw : Rewrite) (ev : PausedEvent) :
    List Eff :=
  [Eff.call (requestRewriteArgs ext rw ev)]

/-- `applyResponseRewrite`: header-only rewrites continue the response with
the patched header set; body rewrites are gated by `shouldGetBody`, fetch
the body, patch it, and fulfil with the original status and the patched
headers; every failure path falls back to a plain `continueResponse`. -/
def applyResponseRewrite (ext : ExtFns) (m : MgrState) (o : Oracle)
    (rw : Rewrite) (ev : PausedEvent) : List Eff :=
  match rw.body with
  | none =>
    match rw.headers with
    | some hp =>
      [Eff.call (Call.continueResponse ev.requestID none
        (some (applyHeaderPatch (getCurrentResponseHeaders ev) hp)))]
    | none => [Eff.call (Call.continueResponse ev.requestID none none)]
  | some bp =>
    let meta := extractResponseMetadata ev
    if ¬ shouldGetBody meta.1 meta.2 m.bodySizeThreshold then
      [Eff.call (Call.continueResponse ev.requestID none none)]
    else
      Eff.fetchBody ::
      match o.fetchOk with
      | none => [Eff.call (Call.continueResponse ev.requestID none none)]
      | some bodyText =>
        match applyBodyPatch ext bodyText bp with
        | none => [Eff.call (Call.continueResponse ev.requestID none none)]
        | some newBody =>
          if newBody = "" then
            [Eff.call (Call.continueResponse ev.requestID none none)]
          else
            let code :=
              match ev.responseStatusCode with
              | some c => c
              | none => 200
            let cur := applyHeaderPatch (getCurrentResponseHeaders ev)
              (match rw.headers with
               | some hp => hp
               | none => [])
            [Eff.call (Call.fulfillRequest ev.requestID code (some cur)
              (some newBody))]

/-- `applyRewrite`: dispatch on the stage string. -/
def applyRewrite (ext : ExtFns) (m : MgrState) (o : Oracle) (rw : Rewrite)
    (ev : PausedEvent) (stage : String) : List Eff :=
  if stage = "response" then applyResponseRewrite ext m o rw ev
  else applyRequestRewrite ext rw ev

/-- `applyContinue`: one plain continue of the current stage. -/
def applyContinue (ev : PausedEvent) (stage : String) : List Eff :=
  if stage = "response" then
    [Eff.call (Call.continueResponse ev.requestID none none)]
  else [Eff.call (Call.continueRequest ev.requestID none none [] none)]

/-- `applyFail`: always `FailRequest` with reason `Failed`, whatever the
action's `reason` says. -/
def applyFail (ev : PausedEvent) (f : Fail) : List Eff :=
  [Eff.call (Call.failRequest ev.requestID "Failed")]

/-- `applyRespond`: on the response stage with no body, continue the
response with the status/header overrides (zero status and empty headers
stay absent); otherwise fulfil. -/
def applyRespond (ev : PausedEvent) (r : Respond) (stage : String) : List Eff :=
  if stage = "response" ∧ r.body = "" then
    [Eff.call (Call.continueResponse ev.requestID
      (if r.status ≠ 0 then some r.status else none)
      (if ¬ r.headers.isEmpty then some r.headers else none))]
  else
    [Eff.call (Call.fulfillRequest ev.requestID r.status
      (if ¬ r.headers.isEmpty then some r.headers else none)
      (if r.body ≠ "" then some r.body else none))]

/-- `hasEffectiveMutations`. -/
def hasEffectiveMutations (mr : Rewrite) : Bool :=
  mr.body.isSome || mr.url.isSome || mr.method.isSome ||
  (match mr.headers with | some l => ¬ l.isEmpty | none => false) ||
  (match mr.query with | some l => ¬ l.isEmpty | none => false) ||
  (match mr.cookies with | some l => ¬ l.isEmpty | none => false)

/-- `applyPauseDefaultAction`: the switch on the default-action type;
`continue_mutated` and the default branch (which covers `continue_original`
and every unknown type) both continue the original transaction. -/
def applyPauseDefaultAction (ev : PausedEvent) (p : Pause) (stage : String) :
    List Eff :=
  if p.defaultAction.type = "fulfill" then
    applyRespond ev ⟨p.defaultAction.status, [], ""⟩ stage
  else if p.defaultAction.type = "fail" then
    applyFail ev ⟨p.defaultAction.reason⟩
  else if p.defaultAction.type = "continue_mutated" then
    applyContinue ev stage
  else
    applyContinue ev stage

/-- `applyPause` (with `sendPendingItem`, `waitForApproval`,
`applyApprovalResult`, `handlePauseOverflow` inlined as in the call graph):
register the approval channel; try the non-blocking pending send (a nil
pending channel skips the send and proceeds); on overflow apply the default
action and emit `degraded`; otherwise wait — an approval with effective
mutations is applied as a rewrite, an empty approval continues, and a timer
expiry applies the default action. -/
def applyPause (ext : ExtFns) (m : MgrState) (o : Oracle) (ev : PausedEvent)
    (p : Pause) (stage : String) : List Eff :=
  if m.pendingNil then
    match o.approval with
    | some mr =>
      if hasEffectiveMutations mr then applyRewrite ext m o mr ev stage
      else applyContinue ev stage
    | none => applyPauseDefaultAction ev p stage
  else if o.pendingFull then
    applyPauseDefaultAction ev p stage ++ [Eff.emitSend "degraded"]
  else
    Eff.pendingSelect "pending" ::
    match o.approval with
    | some mr =>
      if hasEffectiveMutations mr then applyRewrite ext m o mr ev stage
      else applyContinue ev stage
    | none => applyPauseDefaultAction ev p stage

/-- `buildRuleContext`: the evaluation context.  On the response stage the
headers are re-keyed lower-case, `Set-Cookie` and `Content-Type` are
extracted, and the body is fetched only when `shouldGetBody` allows it (a
fetch or decode failure leaves the body empty).  On the request stage the
unmarshalled headers are re-keyed lower-case, the URL query and the
`Cookie` header are decoded with lower-cased keys, and the post data is the
body. -/
def buildRuleContext (ext : ExtFns) (m : MgrState) (o : Oracle)
    (ev : PausedEvent) (stage : String) : Ctx :=
  if stage = "response" then
    let st := ev.responseHeaders.foldl
      (fun (acc : List (String × String) × List (String × String) × String) p =>
        let h := mapSet acc.1 (strLower p.1) p.2
        let ck :=
          if eqFold p.1 "set-cookie" then
            let nv := parseSetCookie p.2
            if nv.1 ≠ "" then mapSet acc.2.1 (strLower nv.1) nv.2 else acc.2.1
          else acc.2.1
        let ct := if eqFold p.1 "content-type" then p.2 else acc.2.2
        (h, ck, ct))
      ([], [], "")
    let h := st.1
    let ck := st.2.1
    let ctype := st.2.2
    let clen :=
      match mapGet h "content-length" with
      | some v =>
        (match parseInt64 v with
         | some n => n
         | none => 0)
      | none => 0
    let bodyText :=
      if shouldGetBody ctype clen m.bodySizeThreshold then
        match o.fetchOk with
        | some b => b
        | none => ""
      else ""
    ⟨ev.url, ev.method, h, [], ck, bodyText, ctype, stage⟩
  else
    let h := ev.requestHeaders.foldl
      (fun acc p => mapSet acc (strLower p.1) p.2) []
    let q := (ext.queryOf ev.url).foldl
      (fun acc p => mapSet acc (strLower p.1) p.2) []
    let ck :=
      match mapGet h "cookie" with
      | some v => (parseCookie v).foldl
          (fun acc p => mapSet acc (strLower p.1) p.2) []
      | none => []
    let ctype :=
      match mapGet h "content-type" with
      | some v => v
      | none => ""
    let bodyText :=
      match ev.postData with
      | some d => d
      | none => ""
    ⟨ev.url, ev.method, h, q, ck, bodyText, ctype, stage⟩

/-- `Manager.decide`: evaluate the rules against the built context; a nil
engine decides nothing. -/
def decideFor (ext : ExtFns) (m : MgrState) (o : Oracle) (ev : PausedEvent)
    (stage : String) : Option Result :=
  match m.engine with
  | none => none
  | some rs => Eval ext rs (buildRuleContext ext m o ev stage)

/-- `Manager.handle` (lines 777–844): the per-event pipeline.  The opening
`intercepted` event, the `degraded`/`failed`/`fulfilled`/`mutated` events
and the pause-overflow `degraded` event are all plain sends on the events
channel.  Sleeping for `delayMS` and the timer values themselves are not
part of the trace; `o.timedOut` is the outcome of the elapsed-time check. -/
def handle (ext : ExtFns) (m : MgrState) (o : Oracle) (ev : PausedEvent) :
    List Eff :=
  let stg := if ev.responseStatusCode.isSome then "response" else "request"
  Eff.emitSend "intercepted" ::
  (match decideFor ext m o ev stg with
   | none => applyContinue ev stg
   | some res =>
     let a := res.action
     if 0 < a.dropRate ∧ o.dropDraw then
       applyContinue ev stg ++ [Eff.emitSend "degraded"]
     else if o.timedOut then
       applyContinue ev stg ++ [Eff.emitSend "degraded"]
     else
       match a.pause with
       | some p => applyPause ext m o ev p stg
       | none =>
         match a.fail with
         | some f => applyFail ev f ++ [Eff.emitSend "failed"]
         | none =>
           match a.respond with
           | some r => applyRespond ev r stg ++ [Eff.emitSend "fulfilled"]
           | none =>
             match a.rewrite with
             | some rw =>
               applyRewrite ext m o rw ev stg ++ [Eff.emitSend "mutated"]
             | none => applyContinue ev stg)

/-- `degradeAndContinue`: the pool-overflow degrade path — an unconditional
`continueRequest` and a plain `degraded` send. -/
def degradeAndContinue (ev : PausedEvent) : List Eff :=
  [Eff.call (Call.continueRequest ev.requestID none none [] none),
   Eff.emitSend "degraded"]

/-- A worker running the submitted handler closure.  `workerPool.worker`
calls `fn()` with no `recover`, so a handler that panics after producing `k`
effects terminates the goroutine with just that prefix issued and nothing
appended; `panicAt = none` is a run without panic. -/
def workerRun (panicAt : Option Nat) (ext : ExtFns) (m : MgrState)
    (o : Oracle) (ev : PausedEvent) : List Eff :=
  match panicAt with
  | none => handle ext m o ev
  | some k => (handle ext m o ev).take k

/-- `dispatchPaused`: a nil pool runs the handler on a fresh goroutine; a
successful submit runs it on a pool worker; an overflowing submit degrades
and continues. -/
def dispatchPaused (poolNil submitOk : Bool) (panicAt : Option Nat)
    (ext : ExtFns) (m : MgrState) (o : Oracle) (ev : PausedEvent) : List Eff :=
  if poolNil then workerRun panicAt ext m o ev
  else if submitOk then workerRun panicAt ext m o ev
  else degradeAndContinue ev

/-- `Manager.sendEvent` (the stream-per-target manager, lines 306–313): a
`select`/`default` send on the events channel. -/
def sendEvent (t : String) : Eff :=
  Eff.emitSelect t

/-- `Handler.sendMatchedEvent` (the handler package): nothing on a nil
events channel, otherwise a `select`/`default` send. -/
def sendMatchedEvent (eventsNil : Bool) (t : String) : List Eff :=
  if eventsNil then [] else [Eff.emitSelect t]

/-- Whether an effect is a terminating adapter call. -/
def isCallEff : Eff → Bool
  | Eff.call _ => true
  | _ => false

/-- The number of terminating adapter calls in a trace. -/
def callCount (tr : List Eff) : Nat :=
  tr.countP isCallEff

/-- The terminating adapter calls of a trace, in order. -/
def callsOf : List Eff → List Call
  | [] => []
  | Eff.call c :: rest => c :: callsOf rest
  | _ :: rest => callsOf rest

/-- The request identifiers of the terminating calls of a trace. -/
def ridsOf (tr : List Eff) : List String :=
  (callsOf tr).map Call.ridOf

/-- Whether running a trace against a full events channel would block: only
a plain send on the events channel does; `select`/`default` sends and
adapter calls never do. -/
def blocksOnFull (tr : List Eff) : Bool :=
  tr.any (fun e => match e with | Eff.emitSend _ => true | _ => false)

/-- Whether a trace emits (by either send form) an event of the given
type. -/
def emitsEvent (tr : List Eff) (t : String) : Bool :=
  tr.any (fun e =>
    match e with
    | Eff.emitSend t' => t' = t
    | Eff.emitSelect t' => t' = t
    | _ => false)

/-! ## Spec-side comparison definition (claim C6)

Modelled from the spec: "the header set passed to continueRequest equals the
original request headers with every non-null entry of the map set and every
null entry removed; headers not named in the map are preserved unchanged." -/

/-- The header set C6 claims `continueRequest` receives: the original
headers minus the patched names, plus the non-null patch entries. -/
def claimRequestHeaders (orig : List (String × String))
    (patch : List (String × Option String)) : List (String × String) :=
  orig.filter (fun kv => (patch.lookup kv.1).isNone) ++ nonNullEntries patch

/-! ## Concrete fixtures for witnesses and counterexamples -/

/-- A trivial instantiation of the external functions. -/
def ext0 : ExtFns :=
  ⟨fun _ _ => false, fun _ => none, fun _ => "", fun _ _ => none,
   fun _ => none, fun _ _ _ => none, fun _ => []⟩

/-- A minimal request-stage paused event. -/
def ev0 : PausedEvent :=
  ⟨"req-1", "https://a.test/", "GET", [("Accept", "x")], none, none, []⟩

/-- A manager with no rules loaded. -/
def mgr0 : MgrState := ⟨none, 0, 0, true⟩

/-- The quiet oracle: no drop, no timeout, no body, no pending overflow, no
approval. -/
def orc0 : Oracle := ⟨false, false, none, false, none⟩

/-- An action with no effect fields set. -/
def act0 : Action := ⟨none, none, none, none, 0, 0⟩

/-- A pause action with the `continue_original` default. -/
def p0 : Pause := ⟨"request", 3000, ⟨"continue_original", 0, ""⟩⟩

/-- A response-stage paused event whose body is large text. -/
def evResp : PausedEvent :=
  ⟨"req-2", "https://a.test/big", "GET", [], none, some 200,
   [("Content-Type", "text/html"), ("Content-Length", "5000000")]⟩

/-- A rewrite that only patches headers (sets `X-A`, removes `Host`). -/
def rwH : Rewrite :=
  ⟨none, none, some [("X-A", some "1"), ("Host", none)], none, none, none⟩

/-- A single-operation JSON body patch. -/
def bp1 : BodyPatch := ⟨none, none, [⟨"replace", "/a", J.num 2, ""⟩]⟩

/-- A rewrite that only patches the body. -/
def rwB : Rewrite := ⟨none, none, none, none, none, some bp1⟩

/-- A trivial evaluation context. -/
def ctx1 : Ctx := ⟨"https://a.test/", "GET", [], [], [], "", "", "request"⟩

/-- A response-stage paused event carrying a `Content-Type` header. -/
def evCT : PausedEvent :=
  ⟨"req-3", "https://a.test/", "GET", [], none, some 200, [("Content-Type", "X")]⟩

/-- A header condition written with the capitalised key. -/
def condUp : Condition := ⟨"header", "", "", [], "Content-Type", "equals", "X", ""⟩

/-- The same header condition with the lower-case key. -/
def condLow : Condition := ⟨"header", "", "", [], "content-type", "equals", "X", ""⟩

/-- An always-matching rule (empty match tree) in mode `short_circuit`. -/
def ruleSC : Rule := ⟨"r1", 0, "short_circuit", ⟨[], [], []⟩, act0⟩

/-- A rule set with the single always-matching `short_circuit` rule. -/
def rsSC : RuleSet := ⟨"1.0", [ruleSC]⟩

/-- Two always-matching rules of equal priority, both in mode `aggregate`. -/
def rsAgg : RuleSet :=
  ⟨"1.0", [⟨"r1", 0, "aggregate", ⟨[], [], []⟩, act0⟩,
           ⟨"r2", 0, "aggregate", ⟨[], [], []⟩, act0⟩]⟩

/-! ## Trace bookkeeping lemmas -/

theorem callsOf_append (a b : List Eff) :
    callsOf (a ++ b) = callsOf a ++ callsOf b := by
  induction a with
  | nil => rfl
  | cons e rest ih => cases e <;> simp [callsOf, ih]

theorem ridsOf_append (a b : List Eff) :
    ridsOf (a ++ b) = ridsOf a ++ ridsOf b := by
  simp [ridsOf, callsOf_append]

theorem ridsOf_applyContinue (ev : PausedEvent) (stg : String) :
    ridsOf (applyContinue ev stg) = [ev.requestID] := by
  by_cases h : stg = "response" <;> simp [applyContinue, h, ridsOf, callsOf, Call.ridOf]

theorem ridsOf_applyFail (ev : PausedEvent) (f : Fail) :
    ridsOf (applyFail ev f) = [ev.requestID] := by
  simp [applyFail, ridsOf, callsOf, Call.ridOf]

theorem ridsOf_applyRespond (ev : PausedEvent) (r : Respond) (stg : String) :
    ridsOf (applyRespond ev r stg) = [ev.requestID] := by
  by_cases h : stg = "response" ∧ r.body = "" <;>
    simp [applyRespond, h, ridsOf, callsOf, Call.ridOf]

theorem ridsOf_applyRequestRewrite (ext : ExtFns) (rw : Rewrite)
    (ev : PausedEvent) :
    ridsOf (applyRequestRewrite ext rw ev) = [ev.requestID] := by
  simp [applyRequestRewrite, requestRewriteArgs, ridsOf, callsOf, Call.ridOf]

theorem ridsOf_applyResponseRewrite (ext : ExtFns) (m : MgrState) (o : Oracle)
    (rw : Rewrite) (ev : PausedEvent) :
    ridsOf (applyResponseRewrite ext m o rw ev) = [ev.requestID] := by
  cases hb : rw.body with
  | none =>
    cases hh : rw.headers <;>
      simp [applyResponseRewrite, hb, hh, ridsOf, callsOf, Call.ridOf]
  | some bp =>
    by_cases hg : shouldGetBody (extractResponseMetadata ev).1
        (extractResponseMetadata ev).2 m.bodySizeThreshold
    · cases hf : o.fetchOk with
      | none =>
        simp [applyResponseRewrite, hb, hg, hf, ridsOf, callsOf, Call.ridOf]
      | some bodyText =>
        cases hp : applyBodyPatch ext bodyText bp with
        | none =>
          simp [applyResponseRewrite, hb, hg, hf, hp, ridsOf, callsOf, Call.ridOf]
        | some newBody =>
          by_cases hnb : newBody = "" <;>
            simp [applyResponseRewrite, hb, hg, hf, hp, hnb, ridsOf, callsOf,
              Call.ridOf]
    · simp [applyResponseRewrite, hb, hg, ridsOf, callsOf, Call.ridOf]

theorem ridsOf_applyRewrite (ext : ExtFns) (m : MgrState) (o : Oracle)
    (rw : Rewrite) (ev : PausedEvent) (stg : String) :
    ridsOf (applyRewrite ext m o rw ev stg) = [ev.requestID] := by
  by_cases h : stg = "response" <;>
    simp [applyRewrite, h, ridsOf_applyResponseRewrite, ridsOf_applyRequestRewrite]

theorem ridsOf_applyPauseDefaultAction (ev : PausedEvent) (p : Pause)
    (stg : String) :
    ridsOf (applyPauseDefaultAction ev p stg) = [ev.requestID] := by
  unfold applyPauseDefaultAction
  split
  · exact ridsOf_applyRespond ev _ stg
  · split
    · exact ridsOf_applyFail ev _
    · split
      · exact ridsOf_applyContinue ev stg
      · exact ridsOf_applyContinue ev stg

theorem ridsOf_applyPause (ext : ExtFns) (m : MgrState) (o : Oracle)
    (ev : PausedEvent) (p : Pause) (stg : String) :
    ridsOf (applyPause ext m o ev p stg) = [ev.requestID] := by
  unfold applyPause
  split
  · cases o.approval with
    | none => exact ridsOf_applyPauseDefaultAction ev p stg
    | some mr =>
      by_cases hm : hasEffectiveMutations mr <;>
        simp [hm, ridsOf_applyRewrite, ridsOf_applyContinue]
  · split
    · rw [ridsOf_append, ridsOf_applyPauseDefaultAction]
      simp [ridsOf, callsOf]
    · have : ∀ tr, ridsOf (Eff.pendingSelect "pending" :: tr) = ridsOf tr := by
        intro tr; simp [ridsOf, callsOf]
      rw [this]
      cases o.approval with
      | none => exact ridsOf_applyPauseDefaultAction ev p stg
      | some mr =>
        by_cases hm : hasEffectiveMutations mr <;>
          simp [hm, ridsOf_applyRewrite, ridsOf_applyContinue]

theorem ridsOf_handle (ext : ExtFns) (m : MgrState) (o : Oracle)
    (ev : PausedEvent) :
    ridsOf (handle ext m o ev) = [ev.requestID] := by
  unfold handle
  have hcons : ∀ tr, ridsOf (Eff.emitSend "intercepted" :: tr) = ridsOf tr := by
    intro tr; simp [ridsOf, callsOf]
  rw [hcons]
  set stg := if ev.responseStatusCode.isSome then "response" else "request" with hstg
  cases hd : decideFor ext m o ev stg with
  | none => exact ridsOf_applyContinue ev stg
  | some res =>
    simp only []
    split
    · rw [ridsOf_append, ridsOf_applyContinue]; simp [ridsOf, callsOf]
    · split
      · rw [ridsOf_append, ridsOf_applyContinue]; simp [ridsOf, callsOf]
      · cases hp : res.action.pause with
        | some p => exact ridsOf_applyPause ext m o ev p stg
        | none =>
          cases hf : res.action.fail with
          | some f =>
            rw [ridsOf_append, ridsOf_applyFail]; simp [ridsOf, callsOf]
          | none =>
            cases hr : res.action.respond with
            | some r =>
              rw [ridsOf_append, ridsOf_applyRespond]; simp [ridsOf, callsOf]
            | none =>
              cases hw : res.action.rewrite with
              | some rw' =>
                rw [ridsOf_append, ridsOf_applyRewrite]; simp [ridsOf, callsOf]
              | none => exact ridsOf_applyContinue ev stg

/-! ## Claim C1 -/

/-- C1 (amended): for every paused event dispatched to the pool, on every
non-panicking path — pool overflow, per-event timer expiry, drop-rate
degradation, pause overflow or timeout, cancellation (the adapter call is
still issued under the cancelled context) — exactly one terminating adapter
call is issued, and it carries the event's requestID. -/
theorem dispatch_issues_exactly_one_terminating_call (poolNil submitOk : Bool)
    (ext : ExtFns) (m : MgrState) (o : Oracle) (ev : PausedEvent) :
    ridsOf (dispatchPaused poolNil submitOk none ext m o ev) = [ev.requestID] := by
  unfold dispatchPaused workerRun
  split
  · exact ridsOf_handle ext m o ev
  · split
    · exact ridsOf_handle ext m o ev
    · simp [degradeAndContinue, ridsOf, callsOf, Call.ridOf]

/-- C1 (counterexample): the worker pool runs the handler without `recover`,
so a handler that panics right after the opening event emission issues no
terminating call at all, contradicting the claim's panic guarantee. -/
theorem dispatch_panic_issues_no_terminating_call :
    callCount (dispatchPaused false true (some 1) ext0 mgr0 orc0 ev0) = 0 ∧
      callCount (dispatchPaused false true (some 1) ext0 mgr0 orc0 ev0) ≠ 1 := by
  constructor <;> decide

/-! ## Claim C7 -/

/-- C7 (amended): `Manager.sendEvent` and `Handler.sendMatchedEvent` emit
through `select`/`default` and never block on a full events channel, but
`Manager.handle` (and its degrade and pause-overflow paths) sends events
with plain channel sends, which block when the channel is full — starting
with the `intercepted` event at the top of every handler run. -/
theorem event_emission_blocking_profile :
    (∀ t, blocksOnFull [sendEvent t] = false) ∧
    (∀ (eventsNil : Bool) (t : String),
      blocksOnFull (sendMatchedEvent eventsNil t) = false) ∧
    (∀ (ext : ExtFns) (m : MgrState) (o : Oracle) (ev : PausedEvent),
      blocksOnFull (handle ext m o ev) = true) := by
  refine ⟨?_, ?_, ?_⟩
  · intro t; simp [sendEvent, blocksOnFull]
  · intro eventsNil t
    cases eventsNil <;> simp [sendMatchedEvent, blocksOnFull]
  · intro ext m o ev
    unfold handle
    simp [blocksOnFull]

/-- C7 (counterexample): a concrete handler run contains a plain (blocking)
send of the `intercepted` event, so emission during handling is not
drop-on-full. -/
theorem handle_contains_blocking_emission :
    Eff.emitSend "intercepted" ∈ handle ext0 mgr0 orc0 ev0 := by
  decide

/-! ## Claim C10 -/

/-- C10 (confirmed): the pause default action `continue_mutated` is
behaviourally identical to `continue_original`: for every paused event and
stage both branches of `applyPauseDefaultAction` issue the same
unconditional continue of the original transaction, with no mutation. -/
theorem pause_default_continue_mutated_eq_original (ev : PausedEvent)
    (pstage : String) (tms st : Int) (rsn : String) (stg : String) :
    applyPauseDefaultAction ev ⟨pstage, tms, ⟨"continue_mutated", st, rsn⟩⟩ stg =
      applyPauseDefaultAction ev ⟨pstage, tms, ⟨"continue_original", st, rsn⟩⟩ stg ∧
    applyPauseDefaultAction ev ⟨pstage, tms, ⟨"continue_mutated", st, rsn⟩⟩ stg =
      applyContinue ev stg := by
  constructor <;> simp [applyPauseDefaultAction]

/-! ## Claim C5 -/

theorem emitsEvent_applyPauseDefaultAction (ev : PausedEvent) (p : Pause)
    (stg : String) (t : String) :
    emitsEvent (applyPauseDefaultAction ev p stg) t = false := by
  unfold applyPauseDefaultAction applyRespond applyFail applyContinue
  split
  · split <;> simp [emitsEvent]
  · split
    · simp [emitsEvent]
    · split <;> split <;> simp [emitsEvent]

/-- C5 (amended): when a pause receives no approval before the timer fires
(and the pending queue did not overflow), the configured `defaultAction` is
applied — `fulfill` and `fail` as themselves, `continue_mutated`,
`continue_original` and every unknown type as an unconditional continue —
but no `timeout` event is emitted on that path. -/
theorem pause_timeout_applies_default_action (ext : ExtFns) (m : MgrState)
    (o : Oracle) (ev : PausedEvent) (p : Pause) (stg : String)
    (hap : o.approval = none) (hpf : o.pendingFull = false) :
    callsOf (applyPause ext m o ev p stg) =
      callsOf (applyPauseDefaultAction ev p stg) ∧
    emitsEvent (applyPause ext m o ev p stg) "timeout" = false ∧
    (p.defaultAction.type ≠ "fulfill" → p.defaultAction.type ≠ "fail" →
      applyPauseDefaultAction ev p stg = applyContinue ev stg) := by
  have htrace : applyPause ext m o ev p stg =
      (if m.pendingNil then applyPauseDefaultAction ev p stg
       else Eff.pendingSelect "pending" :: applyPauseDefaultAction ev p stg) := by
    unfold applyPause
    rw [hap, hpf]
    split <;> simp
  refine ⟨?_, ?_, ?_⟩
  · rw [htrace]; split
    · rfl
    · simp [callsOf]
  · rw [htrace]; split
    · exact emitsEvent_applyPauseDefaultAction ev p stg "timeout"
    · simp [emitsEvent]
      have := emitsEvent_applyPauseDefaultAction ev p stg "timeout"
      simpa [emitsEvent] using this
  · intro h1 h2
    unfold applyPauseDefaultAction
    rw [if_neg h1, if_neg h2]
    split <;> rfl

/-- C5 (witness): the amended theorem applied to a concrete timed-out pause
with the `continue_original` default. -/
theorem pause_timeout_applies_default_action_witness :
    callsOf (applyPause ext0 mgr0 orc0 ev0 p0 "request") =
      callsOf (applyPauseDefaultAction ev0 p0 "request") ∧
    emitsEvent (applyPause ext0 mgr0 orc0 ev0 p0 "request") "timeout" = false ∧
    (p0.defaultAction.type ≠ "fulfill" → p0.defaultAction.type ≠ "fail" →
      applyPauseDefaultAction ev0 p0 "request" = applyContinue ev0 "request") :=
  pause_timeout_applies_default_action ext0 mgr0 orc0 ev0 p0 "request" rfl rfl

/-- C5 (counterexample): on a concrete pause that times out, the default
action is applied but no `timeout` event is emitted anywhere in the trace,
refuting the claim's "a `timeout` event is emitted". -/
theorem pause_timeout_emits_no_timeout_event :
    emitsEvent (applyPause ext0 mgr0 orc0 ev0 p0 "request") "timeout" = false ∧
    callsOf (applyPause ext0 mgr0 orc0 ev0 p0 "request") =
      [Call.continueRequest "req-1" none none [] none] := by
  constructor <;> decide

/-! ## Claim C8 -/

/-- C8 (confirmed): `shouldGetBody` accepts exactly when the lower-cased
`Content-Type` begins with `text/` or `application/json` and the
`Content-Length`, when positive, does not exceed the threshold (4 MiB when
the configured threshold is not positive); a body rewrite whose event fails
the gate falls back to a plain `continueResponse`; and the body is fetched
via `GetResponseBody` only when the gate accepts. -/
theorem body_size_gate :
    (∀ (ctype : String) (clen thr : Int),
      shouldGetBody ctype clen thr = true ↔
        ((strHasPre (strLower ctype) "text/" = true ∨
          strHasPre (strLower ctype) "application/json" = true) ∧
         (0 < clen → clen ≤ (if thr ≤ 0 then (4 * 1024 * 1024 : Int) else thr)))) ∧
    (∀ (ext : ExtFns) (m : MgrState) (o : Oracle) (rw : Rewrite)
        (ev : PausedEvent) (bp : BodyPatch), rw.body = some bp →
      shouldGetBody (extractResponseMetadata ev).1
          (extractResponseMetadata ev).2 m.bodySizeThreshold = false →
      applyResponseRewrite ext m o rw ev =
        [Eff.call (Call.continueResponse ev.requestID none none)]) ∧
    (∀ (ext : ExtFns) (m : MgrState) (o : Oracle) (rw : Rewrite)
        (ev : PausedEvent), Eff.fetchBody ∈ applyResponseRewrite ext m o rw ev →
      shouldGetBody (extractResponseMetadata ev).1
          (extractResponseMetadata ev).2 m.bodySizeThreshold = true) := by
  refine ⟨?_, ?_, ?_⟩
  · intro ctype clen thr
    simp only [shouldGetBody]
    by_cases h1 : clen > 0 ∧ clen > (if thr ≤ 0 then (4 * 1024 * 1024 : Int) else thr)
    · rw [if_pos h1]
      constructor
      · intro h; exact absurd h (by simp)
      · rintro ⟨_, h2⟩
        exact absurd (h2 h1.1) (not_le.mpr h1.2)
    · rw [if_neg h1]
      have h2 : (0 < clen → clen ≤ (if thr ≤ 0 then (4 * 1024 * 1024 : Int) else thr)) := by
        intro hc
        by_contra hle
        exact h1 ⟨hc, by omega⟩
      norm_num at h2 ⊢
      cases hb1 : strHasPre (strLower ctype) "text/" <;>
        cases hb2 : strHasPre (strLower ctype) "application/json" <;>
          simp [hb1, hb2] <;> exact h2
  · intro ext m o rw ev bp hb hg
    unfold applyResponseRewrite
    rw [hb]
    simp [hg]
  · intro ext m o rw ev hf
    unfold applyResponseRewrite at hf
    cases hb : rw.body with
    | none =>
      rw [hb] at hf
      cases hh : rw.headers <;> rw [hh] at hf <;> simp at hf
    | some bp =>
      rw [hb] at hf
      by_cases hg : shouldGetBody (extractResponseMetadata ev).1
          (extractResponseMetadata ev).2 m.bodySizeThreshold
      · exact hg
      · simp [hg] at hf

/-- C8 (witness): a 5 MB `text/html` response against the default 4 MiB
threshold refuses the gate, and a body rewrite of it falls back to the plain
`continueResponse`. -/
theorem body_size_gate_witness :
    applyResponseRewrite ext0 mgr0 orc0 rwB evResp =
      [Eff.call (Call.continueResponse evResp.requestID none none)] :=
  body_size_gate.2.1 ext0 mgr0 orc0 rwB evResp bp1 rfl (by decide)

/-! ## Claim C6 -/

theorem mem_nonNullEntries (hs : List (String × Option String))
    (k v : String) :
    (k, v) ∈ nonNullEntries hs ↔ (k, some v) ∈ hs := by
  induction hs with
  | nil => simp [nonNullEntries]
  | cons p rest ih =>
    rcases p with ⟨k', v?⟩
    cases v? with
    | none => simpa [nonNullEntries] using ih
    | some w =>
      simp only [nonNullEntries, List.foldr_cons, List.mem_cons] at ih ⊢
      rw [ih]
      constructor
      · rintro (h | h)
        · left; cases h; rfl
        · right; exact h
      · rintro (h | h)
        · left; cases h; rfl
        · right; exact h

/-- C6 (amended): for a request-stage rewrite without a cookie patch, the
header list passed to `continueRequest` consists of exactly the non-null
entries of the rewrite's header map — null entries are omitted, and the
original request headers are not carried over at all (removal of the named
headers and loss of the unnamed ones both follow from the replacement
semantics of the CDP header list). -/
theorem request_rewrite_headers_exactly_patch (ext : ExtFns) (rw : Rewrite)
    (ev : PausedEvent) (hc : rw.cookies = none) :
    (∃ u pd, requestRewriteArgs ext rw ev =
      Call.continueRequest ev.requestID u rw.method (buildRequestHeaders rw ev) pd) ∧
    (∀ k v, (k, v) ∈ buildRequestHeaders rw ev ↔
      (k, some v) ∈ (rw.headers.getD [])) := by
  constructor
  · exact ⟨_, _, rfl⟩
  · intro k v
    unfold buildRequestHeaders
    rw [hc]
    cases hh : rw.headers with
    | none => simp [nonNullEntries]
    | some hs =>
      simp only [Option.getD_some]
      exact mem_nonNullEntries hs k v

/-- C6 (witness): the amended theorem at a concrete header patch. -/
theorem request_rewrite_headers_exactly_patch_witness :
    (∃ u pd, requestRewriteArgs ext0 rwH ev0 =
      Call.continueRequest ev0.requestID u rwH.method
        (buildRequestHeaders rwH ev0) pd) ∧
    (∀ k v, (k, v) ∈ buildRequestHeaders rwH ev0 ↔
      (k, some v) ∈ (rwH.headers.getD [])) :=
  request_rewrite_headers_exactly_patch ext0 rwH ev0 rfl

/-- C6 (counterexample): the original `Accept` header, unnamed in the patch
map, is required by the claim to be preserved in the header set passed to
`continueRequest`, but `buildRequestHeaders` drops it. -/
theorem request_rewrite_drops_unnamed_headers :
    ("Accept", "x") ∈
      claimRequestHeaders ev0.requestHeaders [("X-A", some "1"), ("Host", none)] ∧
    ("Accept", "x") ∉ buildRequestHeaders rwH ev0 := by
  constructor <;> decide

/-! ## Claim C9 -/

/-- C9 (amended): `glob` matches when the pattern is the bare `*`, or the
pattern starts with `*` and the URL ends with the rest, or the pattern ends
with `*` and the URL starts with the rest, or the URL equals the pattern;
the star branches apply to every pattern with the respective boundary star,
also when the pattern carries further stars, and only patterns with neither
a leading nor a trailing star are exact-match-only. -/
theorem glob_characterization (s p : String) :
    (glob s p = true ↔
      (p = "*" ∨
       (strHasPre p "*" = true ∧ strHasSuf s (String.mk (p.data.drop 1)) = true) ∨
       (strHasSuf p "*" = true ∧ strHasPre s (String.mk p.data.dropLast) = true) ∨
       s = p)) ∧
    (strHasPre p "*" = false → strHasSuf p "*" = false →
      (glob s p = true ↔ s = p)) := by
  have hmain : glob s p = true ↔
      (p = "*" ∨
       (strHasPre p "*" = true ∧ strHasSuf s (String.mk (p.data.drop 1)) = true) ∨
       (strHasSuf p "*" = true ∧ strHasPre s (String.mk p.data.dropLast) = true) ∨
       s = p) := by
    unfold glob
    rcases eq_or_ne p "*" with hp | hp
    · simp [hp]
    · rw [if_neg hp]
      simp only [hp, false_or]
      cases hA : strHasPre p "*" <;>
        cases hB : strHasSuf s (String.mk (p.data.drop 1)) <;>
          cases hC : strHasSuf p "*" <;>
            cases hD : strHasPre s (String.mk p.data.dropLast) <;>
              simp [hA, hB, hC, hD]
  refine ⟨hmain, ?_⟩
  intro h1 h2
  rw [hmain]
  constructor
  · rintro (hp | ⟨ha, _⟩ | ⟨ha, _⟩ | hp)
    · subst hp; exact absurd h1 (by decide)
    · rw [h1] at ha; cases ha
    · rw [h2] at ha; cases ha
    · exact hp
  · intro hp; exact Or.inr (Or.inr (Or.inr hp))

/-- C9 (witness): the amended theorem's exact-only clause at a concrete
pattern with an interior star and no boundary star. -/
theorem glob_characterization_witness :
    glob "a*b" "a*b" = true ↔ "a*b" = "a*b" :=
  (glob_characterization "a*b" "a*b").2 (by decide) (by decide)

/-- C9 (counterexample): the pattern `*abc*` has both a leading and a
trailing star, so by the claim it falls outside the three recognised shapes
and should match only the URL equal to it; but `glob` matches the URL
`*abcxyz` through the trailing-star prefix branch, although that URL neither
equals the pattern nor ends with the suffix `abc*` of the leading-star
rule. -/
theorem glob_double_star_matches_nonequal :
    glob "*abcxyz" "*abc*" = true ∧
    strHasSuf "*abcxyz" "abc*" = false ∧
    "*abcxyz" ≠ "*abc*" := by
  refine ⟨by decide, by decide, by decide⟩

/-! ## Claim C3 -/

theorem mapGet_eq_none_of_lower_keys (l : List (String × String)) (k : String)
    (hl : ∀ pr ∈ l, strLower pr.1 = pr.1) (hk : strLower k ≠ k) :
    mapGet l k = none := by
  induction l with
  | nil => rfl
  | cons pr rest ih =>
    unfold mapGet
    rcases pr with ⟨k', v⟩
    by_cases he : k' = k
    · subst he
      exact absurd (hl (k', v) (by simp)) hk
    · rw [if_neg he]
      exact ih (fun q hq => hl q (List.mem_cons_of_mem _ hq))

/-- C3 (amended): stored headers are lower-case-keyed, but `cond` looks the
condition's key up verbatim without normalisation, so header matching is
case-sensitive in the condition key: against any context whose header keys
are lower-case (as `buildRuleContext` produces), a header condition whose
key is not already all lower-case never matches, under every operator. -/
theorem header_cond_requires_lowercase_key (ext : ExtFns) (ctx : Ctx)
    (c : Condition) (ht : c.type = "header")
    (hl : ∀ pr ∈ ctx.headers, strLower pr.1 = pr.1)
    (hk : strLower c.key ≠ c.key) :
    cond ext ctx c = false := by
  unfold cond
  rw [ht]
  rw [mapGet_eq_none_of_lower_keys ctx.headers c.key hl hk]
  simp

/-- C3 (witness): the amended theorem on the context `buildRuleContext`
derives from a concrete response, with the capitalised condition key. -/
theorem header_cond_requires_lowercase_key_witness :
    cond ext0 (buildRuleContext ext0 mgr0 orc0 evCT "response") condUp = false :=
  header_cond_requires_lowercase_key ext0
    (buildRuleContext ext0 mgr0 orc0 evCT "response") condUp rfl
    (by decide) (by decide)

/-- C3 (counterexample): the same header condition evaluates differently
depending on the capitalisation of the key written in it — `Content-Type`
finds nothing in the lower-keyed stored headers while `content-type`
matches — refuting the claimed capitalisation-independence. -/
theorem header_cond_key_capitalisation_matters :
    cond ext0 (buildRuleContext ext0 mgr0 orc0 evCT "response") condUp ≠
      cond ext0 (buildRuleContext ext0 mgr0 orc0 evCT "response") condLow ∧
    cond ext0 (buildRuleContext ext0 mgr0 orc0 evCT "response") condLow = true := by
  refine ⟨by decide, by decide⟩

/-! ## Claim C2 -/

theorem evalLoop_isSome_of_chosen (ext : ExtFns) (ctx : Ctx) :
    ∀ (l : List Rule) (c : Rule), (evalLoop ext ctx l (some c)).isSome = true := by
  intro l
  induction l with
  | nil => intro c; rfl
  | cons r rest ih =>
    intro c
    unfold evalLoop
    by_cases hm : matchRule ext ctx r.matchOn = true
    · rw [if_pos hm]
      by_cases hg : chosenBeaten (some c) r = true
      · rw [if_pos hg]
        by_cases hs : r.mode = "short_circuit"
        · rw [if_pos hs]; rfl
        · rw [if_neg hs]; exact ih r
      · rw [if_neg hg]
        exact ih c
    · rw [if_neg hm]
      exact ih c

theorem evalLoop_none_iff (ext : ExtFns) (ctx : Ctx) :
    ∀ l : List Rule, evalLoop ext ctx l none = none ↔
      ∀ r ∈ l, matchRule ext ctx r.matchOn = false := by
  intro l
  induction l with
  | nil => simp [evalLoop]
  | cons r rest ih =>
    unfold evalLoop
    by_cases hm : matchRule ext ctx r.matchOn = true
    · rw [if_pos hm]
      rw [if_pos (show chosenBeaten none r = true from rfl)]
      constructor
      · intro h
        by_cases hs : r.mode = "short_circuit"
        · rw [if_pos hs] at h; cases h
        · rw [if_neg hs] at h
          have := evalLoop_isSome_of_chosen ext ctx rest r
          rw [h] at this; cases this
      · intro h
        exact absurd hm (by simp [h r (by simp)])
    · rw [if_neg hm]
      rw [ih]
      constructor
      · intro h
        intro r' hr'
        rcases List.mem_cons.mp hr' with rfl | hr'
        · simpa using hm
        · exact h r' hr'
      · intro h r' hr'
        exact h r' (List.mem_cons_of_mem _ hr')

theorem evalLoop_some_spec (ext : ExtFns) (ctx : Ctx) :
    ∀ (l : List Rule) (chosen : Option Rule) (r : Rule),
      evalLoop ext ctx l chosen = some r →
      chosen = some r ∨
      (matchRule ext ctx r.matchOn = true ∧
       (∀ c, chosen = some c → c.priority < r.priority) ∧
       ∃ pre post, l = pre ++ r :: post ∧
         ∀ r' ∈ pre, matchRule ext ctx r'.matchOn = true →
           r'.priority < r.priority) := by
  intro l
  induction l with
  | nil =>
    intro chosen r h
    exact Or.inl h
  | cons r0 rest ih =>
    intro chosen r h
    unfold evalLoop at h
    by_cases hm : matchRule ext ctx r0.matchOn = true
    · rw [if_pos hm] at h
      by_cases hg : chosenBeaten chosen r0 = true
      · rw [if_pos hg] at h
        have hchosen : ∀ c, chosen = some c → c.priority < r0.priority := by
          intro c hc
          rw [hc] at hg
          simpa [chosenBeaten] using hg
        by_cases hs : r0.mode = "short_circuit"
        · rw [if_pos hs] at h
          right
          refine ⟨(Option.some.inj h) ▸ hm, ?_, [], rest, by simp [Option.some.inj h], by simp⟩
          intro c hc
          have := hchosen c hc
          rwa [Option.some.inj h] at this
        · rw [if_neg hs] at h
          rcases ih (some r0) r h with hc | ⟨hmr, hcr, pre, post, hsplit, hpre⟩
          · right
            have hr0 : r0 = r := Option.some.inj hc
            subst hr0
            refine ⟨hm, hchosen, [], rest, rfl, by simp⟩
          · right
            have hr0r : r0.priority < r.priority := hcr r0 rfl
            refine ⟨hmr, ?_, r0 :: pre, post, by simp [hsplit], ?_⟩
            · intro c hc
              exact lt_trans (hchosen c hc) hr0r
            · intro r' hr' hmr'
              rcases List.mem_cons.mp hr' with rfl | hr'
              · exact hr0r
              · exact hpre r' hr' hmr'
      · rw [if_neg hg] at h
        rcases ih chosen r h with hc | ⟨hmr, hcr, pre, post, hsplit, hpre⟩
        · exact Or.inl hc
        · right
          refine ⟨hmr, hcr, r0 :: pre, post, by simp [hsplit], ?_⟩
          intro r' hr' hmr'
          rcases List.mem_cons.mp hr' with rfl | hr'
          · -- the guard failed: chosen = some c with ¬ c.priority < r'.priority,
            -- and c.priority < r.priority from the inductive step
            cases hco : chosen with
            | none => rw [hco] at hg; simp [chosenBeaten] at hg
            | some c =>
              rw [hco] at hg
              have h1 : ¬ c.priority < r'.priority := by
                simpa [chosenBeaten] using hg
              have h2 : c.priority < r.priority := hcr c hco
              omega
          · exact hpre r' hr' hmr'
    · rw [if_neg hm] at h
      rcases ih chosen r h with hc | ⟨hmr, hcr, pre, post, hsplit, hpre⟩
      · exact Or.inl hc
      · right
        refine ⟨hmr, hcr, r0 :: pre, post, by simp [hsplit], ?_⟩
        intro r' hr' hmr'
        rcases List.mem_cons.mp hr' with rfl | hr'
        · exact absurd hmr' (by simpa using hm)
        · exact hpre r' hr' hmr'

theorem evalLoop_first_short_circuit (ext : ExtFns) (ctx : Ctx) :
    ∀ (pre : List Rule) (r : Rule) (post : List Rule),
      (∀ r' ∈ pre, matchRule ext ctx r'.matchOn = false) →
      matchRule ext ctx r.matchOn = true → r.mode = "short_circuit" →
      evalLoop ext ctx (pre ++ r :: post) none = some r := by
  intro pre
  induction pre with
  | nil =>
    intro r post _ hm hs
    rw [List.nil_append]
    show (if matchRule ext ctx r.matchOn = true then
        if chosenBeaten none r = true then
          if r.mode = "short_circuit" then some r
          else evalLoop ext ctx post (some r)
        else evalLoop ext ctx post none
      else evalLoop ext ctx post none) = some r
    rw [if_pos hm]
    rw [if_pos (show chosenBeaten none r = true from rfl)]
    rw [if_pos hs]
  | cons r0 rest ih =>
    intro r post hpre hm hs
    rw [List.cons_append]
    show (if matchRule ext ctx r0.matchOn = true then
        if chosenBeaten none r0 = true then
          if r0.mode = "short_circuit" then some r0
          else evalLoop ext ctx (rest ++ r :: post) (some r0)
        else evalLoop ext ctx (rest ++ r :: post) none
      else evalLoop ext ctx (rest ++ r :: post) none) = some r
    rw [if_neg (by simp [hpre r0 (by simp)])]
    exact ih r post (fun r' hr' => hpre r' (List.mem_cons_of_mem _ hr')) hm hs

/-- C2 (amended): `Engine.Eval` iterates rules in declaration order but
returns at most one rule: it returns none exactly when no rule matches; any
returned rule is a matching rule from the list (with its id and action)
whose priority strictly exceeds that of every matching rule declared before
it; and when the first matching rule has mode `short_circuit`, that rule is
returned and iteration stops there.  In particular `aggregate` does not
return all matching rules, and a `short_circuit` rule only terminates the
scan when it becomes the chosen rule. -/
theorem eval_returns_single_highest_priority_rule (ext : ExtFns)
    (rs : RuleSet) (ctx : Ctx) :
    (Eval ext rs ctx = none ↔
      ∀ r ∈ rs.rules, matchRule ext ctx r.matchOn = false) ∧
    (∀ res, Eval ext rs ctx = some res →
      ∃ pre r post, rs.rules = pre ++ r :: post ∧ res.ruleID = r.id ∧
        res.action = r.action ∧ matchRule ext ctx r.matchOn = true ∧
        ∀ r' ∈ pre, matchRule ext ctx r'.matchOn = true →
          r'.priority < r.priority) ∧
    (∀ pre r post, rs.rules = pre ++ r :: post →
      (∀ r' ∈ pre, matchRule ext ctx r'.matchOn = false) →
      matchRule ext ctx r.matchOn = true → r.mode = "short_circuit" →
      Eval ext rs ctx = some ⟨r.id, r.action⟩) := by
  refine ⟨?_, ?_, ?_⟩
  · unfold Eval
    by_cases hrs : rs.rules.isEmpty
    · rw [if_pos hrs]
      have : rs.rules = [] := List.isEmpty_iff.mp hrs
      simp [this]
    · rw [if_neg hrs]
      rw [Option.map_eq_none']
      exact evalLoop_none_iff ext ctx rs.rules
  · intro res h
    unfold Eval at h
    by_cases hrs : rs.rules.isEmpty
    · rw [if_pos hrs] at h; cases h
    · rw [if_neg hrs] at h
      cases hloop : evalLoop ext ctx rs.rules none with
      | none => rw [hloop] at h; cases h
      | some r =>
        rw [hloop] at h
        have hres : res = ⟨r.id, r.action⟩ := by
          simpa using h.symm
        rcases evalLoop_some_spec ext ctx rs.rules none r hloop with hc | hspec
        · cases hc
        · rcases hspec with ⟨hm, _, pre, post, hsplit, hpre⟩
          exact ⟨pre, r, post, hsplit, by rw [hres], by rw [hres], hm, hpre⟩
  · intro pre r post hsplit hpre hm hs
    unfold Eval
    rw [if_neg (by simp [hsplit])]
    rw [hsplit]
    rw [evalLoop_first_short_circuit ext ctx pre r post hpre hm hs]
    rfl

/-- C2 (witness): the amended theorem's short-circuit clause applied to a
one-rule set whose first (and only) matching rule is `short_circuit`. -/
theorem eval_returns_single_highest_priority_rule_witness :
    Eval ext0 rsSC ctx1 = some ⟨"r1", act0⟩ :=
  (eval_returns_single_highest_priority_rule ext0 rsSC ctx1).2.2
    [] ruleSC [] rfl (by simp) (by decide) rfl

/-- C2 (counterexample): with two always-matching `aggregate` rules,
evaluation returns only the first rule, not all matching rules in
declaration order as the claim states. -/
theorem eval_aggregate_does_not_return_all_matches :
    evalRuleIDs ext0 rsAgg ctx1 = ["r1"] ∧
    (rsAgg.rules.filter
      (fun r => matchRule ext0 ctx1 r.matchOn)).map (fun r => r.id)
      = ["r1", "r2"] ∧
    evalRuleIDs ext0 rsAgg ctx1 ≠
      (rsAgg.rules.filter
        (fun r => matchRule ext0 ctx1 r.matchOn)).map (fun r => r.id) := by
  refine ⟨by decide, by decide, by decide⟩

/-! ## Claim C4 -/

/-- C4 (amended): `applyJSONPatch` applies the operations strictly in order
(the patch is the sequential composition of its operations, and the first
failing operation aborts everything after it); `add` and `replace` have
identical set-at-pointer semantics (so `add` overwrites at existing array
indices instead of inserting); a `test` whose target is unresolvable or not
deeply equal to its value aborts the whole patch; and an aborted patch makes
`applyBodyPatch` contribute no body. -/
theorem json_patch_ordered_set_semantics :
    (∀ (v : J) (ops1 ops2 : List JSONPatchOp),
      applyJSONPatch v (ops1 ++ ops2) =
        (applyJSONPatch v ops1).bind fun v1 => applyJSONPatch v1 ops2) ∧
    (∀ (v : J) (p : String) (val : J) (fp : String) (rest : List JSONPatchOp),
      (match getByPtr v p with
       | none => true
       | some cur => !(beqJ cur val)) = true →
      applyJSONPatch v (⟨"test", p, val, fp⟩ :: rest) = none) ∧
    (∀ (v : J) (p : String) (val : J) (fp fp2 : String)
        (rest : List JSONPatchOp),
      applyJSONPatch v (⟨"add", p, val, fp⟩ :: rest) =
        applyJSONPatch v (⟨"replace", p, val, fp2⟩ :: rest)) ∧
    (∀ (ext : ExtFns) (src : String) (bp : BodyPatch),
      bp.base64 = none → bp.textRegex = none → ¬ bp.jsonPatch.isEmpty →
      applyJSONPatchStr ext src bp.jsonPatch = none →
      applyBodyPatch ext src bp = none) := by
  refine ⟨?_, ?_, ?_, ?_⟩
  · intro v ops1 ops2
    induction ops1 generalizing v with
    | nil => simp [applyJSONPatch]
    | cons o rest ih =>
      simp only [List.cons_append]
      show (match applyOp v o with
            | none => none
            | some v2 => applyJSONPatch v2 (rest ++ ops2)) =
          Option.bind
            (match applyOp v o with
             | none => none
             | some v2 => applyJSONPatch v2 rest)
            fun v1 => applyJSONPatch v1 ops2
      cases applyOp v o with
      | none => rfl
      | some v2 => exact ih v2
  · intro v p val fp rest h
    show (match applyOp v ⟨"test", p, val, fp⟩ with
          | none => none
          | some v2 => applyJSONPatch v2 rest) = none
    have : applyOp v ⟨"test", p, val, fp⟩ = none := by
      unfold applyOp
      simp only []
      cases hg : getByPtr v p with
      | none => simp
      | some cur =>
        rw [hg] at h
        simp only [Bool.not_eq_true'] at h
        simp [h]
    rw [this]
  · intro v p val fp fp2 rest
    show (match applyOp v ⟨"add", p, val, fp⟩ with
          | none => none
          | some v2 => applyJSONPatch v2 rest) =
        (match applyOp v ⟨"replace", p, val, fp2⟩ with
          | none => none
          | some v2 => applyJSONPatch v2 rest)
    have : applyOp v ⟨"add", p, val, fp⟩ = applyOp v ⟨"replace", p, val, fp2⟩ := by
      unfold applyOp setByPtr
      simp
    rw [this]
  · intro ext src bp h64 hrx hops habort
    unfold applyBodyPatch
    rw [h64, hrx]
    simp only [hops, if_false]
    exact habort

/-- C4 (witness): the amended theorem's test clause at a concrete document
whose value under `/a` differs from the tested value. -/
theorem json_patch_ordered_set_semantics_witness :
    applyJSONPatch (J.obj [("a", J.num 1)])
      [⟨"test", "/a", J.num 5, ""⟩, ⟨"add", "/b", J.num 7, ""⟩] = none :=
  json_patch_ordered_set_semantics.2.1 (J.obj [("a", J.num 1)]) "/a"
    (J.num 5) "" [⟨"add", "/b", J.num 7, ""⟩] (by decide)

/-- C4 (counterexample): RFC-6902 `add` at an existing array index inserts
(`{"a":[1,2]}` with `add /a/0 9` yields `{"a":[9,1,2]}`), but the code's
`add` overwrites the element, yielding `{"a":[9,2]}`. -/
theorem json_patch_add_overwrites_array_element :
    applyJSONPatch (J.obj [("a", J.arr [J.num 1, J.num 2])])
      [⟨"add", "/a/0", J.num 9, ""⟩]
      = some (J.obj [("a", J.arr [J.num 9, J.num 2])]) ∧
    J.obj [("a", J.arr [J.num 9, J.num 2])] ≠
      J.obj [("a", J.arr [J.num 9, J.num 1, J.num 2])] := by
  refine ⟨rfl, by simp⟩

end Cdpnetool
